import Mathlib

/-!
Verification development for the OpenHands MCP resolver repository.

The definitions below are shallow embeddings of the JavaScript source:
- `CodeGeneration` embeds src/modules/code_generation/index.js
  (generateAndValidateCode, refineCode); the external collaborators
  (Claude invocation, change extraction, validation) are passed in as
  function parameters, matching the way the source calls them.
- `BatchProcessing` embeds the first (ESM) batch-processing module
  (processBatch, prioritizeIssues, processIssuesWithThrottling,
  generateBatchSummary); promise timing is made explicit with integer
  millisecond timestamps, and Math.random is a function parameter.
- `BatchProcessing2` embeds the second (CommonJS) batch-processing module
  (processBatch, processWithConcurrencyLimit); the event-loop
  interleaving of the worker chains is an explicit schedule parameter.
- `TaskSetup` embeds src/modules/task_setup/index.js
  (processSequential, calculatePriority, simplifyErrorMessage,
  getBatchStatistics).
-/

/-- JavaScript `x || d` for an optional numeric config value: `undefined`
and `0` are falsy, so both fall back to the default. -/
def jsOrNat (v : Option Nat) (d : Nat) : Nat :=
  match v with
  | some (k + 1) => k + 1
  | _ => d

/-- JavaScript `Math.round`: round half toward positive infinity. -/
def jsRound (q : ℚ) : Int :=
  ⌊q + 1 / 2⌋

namespace CodeGeneration

/-- Result of `validateCode`: a validity flag plus the list of issue
messages (the source stores objects with a message and the offending
change; only the messages matter here). -/
structure ValidationResult where
  valid : Bool
  issues : List String
deriving Repr, DecidableEq

/-- The object literal returned by `refineCode`: refined changes, an
explanation extracted from the model response, the validation result of
the refined changes, and the `refinementAttempts` counter. -/
structure RefineResult (γ : Type) where
  codeChanges : List γ
  explanation : String
  validationResult : ValidationResult
  refinementAttempts : Nat
deriving Repr, DecidableEq

/-- The object returned by `generateAndValidateCode`.  On the
first-validation-success path the source's object literal has no
`refinementAttempts` field at all, hence the `Option`. -/
structure GenResult (γ : Type) where
  codeChanges : List γ
  explanation : String
  validationResult : ValidationResult
  refinementAttempts : Option Nat
deriving Repr, DecidableEq

/-- Embedding of `refineCode(codeChanges, validationResult, taskConfig)` from
src/modules/code_generation/index.js lines 821-891.  One call performs
one generate+validate cycle: build a refinement prompt, invoke the
model, extract changes, validate them; then
`refinementAttempts = (taskConfig.refinementAttempts || 0) + 1`, and if
the refined changes are still invalid and `refinementAttempts < 3` it
recurses with the incremented counter.  `attempts` is the value of
`taskConfig.refinementAttempts || 0`. -/
def refineCode {γ P R : Type}
    (generateRefinementPrompt : List γ → ValidationResult → P)
    (generateCodeWithClaudeDesktop : P → R)
    (extractCodeChanges : R → List γ)
    (extractExplanation : R → String)
    (validateCode : List γ → ValidationResult)
    (codeChanges : List γ) (validationResult : ValidationResult)
    (attempts : Nat) : RefineResult γ :=
  let refinementPrompt := generateRefinementPrompt codeChanges validationResult
  let refinedResponse := generateCodeWithClaudeDesktop refinementPrompt
  let refinedChanges := extractCodeChanges refinedResponse
  let refinedValidationResult := validateCode refinedChanges
  let refinementAttempts := attempts + 1
  if _h : refinedValidationResult.valid = false ∧ refinementAttempts < 3 then
    refineCode generateRefinementPrompt generateCodeWithClaudeDesktop
      extractCodeChanges extractExplanation validateCode
      refinedChanges refinedValidationResult refinementAttempts
  else
    { codeChanges := refinedChanges
      explanation := extractExplanation refinedResponse
      validationResult := refinedValidationResult
      refinementAttempts := refinementAttempts }
termination_by 3 - attempts
decreasing_by omega

/-- Number of generate+validate cycles executed by `refineCode` (one per
call in the recursion chain); same control flow as `refineCode`. -/
def refineCodeCycles {γ P R : Type}
    (generateRefinementPrompt : List γ → ValidationResult → P)
    (generateCodeWithClaudeDesktop : P → R)
    (extractCodeChanges : R → List γ)
    (validateCode : List γ → ValidationResult)
    (codeChanges : List γ) (validationResult : ValidationResult)
    (attempts : Nat) : Nat :=
  let refinementPrompt := generateRefinementPrompt codeChanges validationResult
  let refinedResponse := generateCodeWithClaudeDesktop refinementPrompt
  let refinedChanges := extractCodeChanges refinedResponse
  let refinedValidationResult := validateCode refinedChanges
  let refinementAttempts := attempts + 1
  if _h : refinedValidationResult.valid = false ∧ refinementAttempts < 3 then
    1 + refineCodeCycles generateRefinementPrompt generateCodeWithClaudeDesktop
      extractCodeChanges validateCode
      refinedChanges refinedValidationResult refinementAttempts
  else
    1
termination_by 3 - attempts
decreasing_by omega

/-- Embedding of `generateAndValidateCode(taskConfig)` from
src/modules/code_generation/index.js lines 33-107.  `prompt` stands for
`generatePrompt(taskConfig)`.  The throw on an empty change list is the
error path (re-wrapped by the catch as `Code generation failed: ...`).
If the first validation fails the function returns
`refineCode(codeChanges, validationResult, taskConfig)` where the task
config carries no `refinementAttempts` field yet (so the counter starts
at 0); otherwise it returns an object without a `refinementAttempts`
field. -/
def generateAndValidateCode {γ P R : Type}
    (generateRefinementPrompt : List γ → ValidationResult → P)
    (generateCodeWithClaudeDesktop : P → R)
    (extractCodeChanges : R → List γ)
    (extractExplanation : R → String)
    (validateCode : List γ → ValidationResult)
    (prompt : P) : Except String (GenResult γ) :=
  let generatedCode := generateCodeWithClaudeDesktop prompt
  let codeChanges := extractCodeChanges generatedCode
  if codeChanges.isEmpty then
    .error "Code generation failed: No valid code changes were generated"
  else
    let validationResult := validateCode codeChanges
    if validationResult.valid = false then
      let r := refineCode generateRefinementPrompt generateCodeWithClaudeDesktop
        extractCodeChanges extractExplanation validateCode
        codeChanges validationResult 0
      .ok { codeChanges := r.codeChanges
            explanation := r.explanation
            validationResult := r.validationResult
            refinementAttempts := some r.refinementAttempts }
    else
      .ok { codeChanges := codeChanges
            explanation := extractExplanation generatedCode
            validationResult := validationResult
            refinementAttempts := none }

/-- Total generate+validate cycles executed by `generateAndValidateCode`:
the initial cycle plus, when the first validation fails, the cycles of
the refine loop. -/
def generateAndValidateCodeCycles {γ P R : Type}
    (generateRefinementPrompt : List γ → ValidationResult → P)
    (generateCodeWithClaudeDesktop : P → R)
    (extractCodeChanges : R → List γ)
    (validateCode : List γ → ValidationResult)
    (prompt : P) : Nat :=
  let generatedCode := generateCodeWithClaudeDesktop prompt
  let codeChanges := extractCodeChanges generatedCode
  if codeChanges.isEmpty then
    1
  else
    let validationResult := validateCode codeChanges
    if validationResult.valid = false then
      1 + refineCodeCycles generateRefinementPrompt generateCodeWithClaudeDesktop
        extractCodeChanges validateCode codeChanges validationResult 0
    else
      1

end CodeGeneration

/-- A JavaScript argument that is either not an array at all or an array
of values; used for the input guards of both processBatch variants. -/
inductive JsInput (α : Type) where
  | notArray : JsInput α
  | arr : List α → JsInput α
deriving Repr, DecidableEq

deriving instance DecidableEq for Except
deriving instance Repr for Except

namespace BatchProcessing

/-- A GitHub issue object as consumed by the ESM batch module, together
with the behaviour of the `resolveFunction` parameter on it: `delay` is
the latency (ms) of `resolveFunction(issue)` and `outcome` is its
result or thrown error message.  `ageDays` models the issue's age; the
batch prioritizer never reads it.  `priorityScore` is the field the
prioritizer spreads onto the issue (absent before prioritization). -/
structure Issue where
  labels : List String
  ageDays : ℚ
  delay : Nat
  outcome : Except String String
  priorityScore : Option ℚ := none
deriving Repr, DecidableEq

/-- The hard-coded priority label list of `prioritizeIssues`. -/
def priorityLabels : List String :=
  ["high-priority", "priority", "critical", "urgent"]

/-- The deterministic part of the `prioritizeIssues` score: +10 per
label contained in `priorityLabels`, +5 when a `bug` label is present. -/
def labelScore (labels : List String) : ℚ :=
  10 * (labels.countP (fun label => priorityLabels.contains label) : ℚ) +
    (if labels.contains "bug" then 5 else 0)

/-- The descending comparison used by
`scoredIssues.sort((a, b) => b.priorityScore - a.priorityScore)`;
a stable sort under this total preorder reproduces the JS sort. -/
def byScoreDesc : Issue → Issue → Prop :=
  fun a b => b.priorityScore.getD 0 ≤ a.priorityScore.getD 0

instance : DecidableRel byScoreDesc :=
  fun a b => inferInstanceAs (Decidable (b.priorityScore.getD 0 ≤ a.priorityScore.getD 0))

instance : IsTotal Issue byScoreDesc :=
  ⟨fun a b => le_total (b.priorityScore.getD 0) (a.priorityScore.getD 0)⟩

instance : IsTrans Issue byScoreDesc :=
  ⟨fun _ _ _ hab hbc => le_trans hbc hab⟩

/-- Embedding of `prioritizeIssues(issueList)` from the ESM batch module (part_005
lines 65-107): copy the list, score each issue
(label score plus `Math.random()`, modelled by `random i` for the i-th
issue in map order), spread the score onto the issue, and sort the
scored issues descending by score (stable). -/
def prioritizeIssues (issueList : List Issue) (random : Nat → ℚ) : List Issue :=
  let scoredIssues := issueList.mapIdx (fun i issue =>
    { issue with priorityScore := some (labelScore issue.labels + random i) })
  List.insertionSort byScoreDesc scoredIssues

/-- One in-flight promise of `processIssuesWithThrottling`: the issue it
resolves, the absolute time at which `resolveFunction` settles, and -
once it has settled - the value the continuation read from the shared
`index` variable at that moment (`originalIndex: index` is evaluated
after the `await`, so it samples the mutable counter at settle time,
not the loop position at creation time). -/
structure Prom where
  issue : Issue
  finish : Nat
  sampled : Option Nat
deriving Repr, DecidableEq

/-- The per-issue record pushed by the promise body: on a normal return
`{originalIndex, issue, result, success: true}`, on a caught error
`{originalIndex, issue, error: error.message, success: false}`. -/
structure ThrottleRecord where
  originalIndex : Nat
  issue : Issue
  result : Option String
  error : Option String
  success : Bool
deriving Repr, DecidableEq

/-- Build the record a settled promise produced, given the sampled value
of the shared `index` counter. -/
def mkRecord (originalIndex : Nat) (issue : Issue) : ThrottleRecord :=
  match issue.outcome with
  | .ok v => ⟨originalIndex, issue, some v, none, true⟩
  | .error e => ⟨originalIndex, issue, none, some e, false⟩

/-- Scheduler state of `processIssuesWithThrottling`: current event-loop
time, the shared `index` counter, the `activePromises` array (in array
order), the `results` array (in push order), and an instrumentation
field recording the high-water mark of `activePromises.length`
(the spec's concurrent-call high-water mark; the source has no such
variable, it is ghost state for the concurrency-bound theorem). -/
structure SimState where
  time : Nat
  index : Nat
  active : List Prom
  results : List ThrottleRecord
  hiwater : Nat
deriving Repr, DecidableEq

/-- When the event loop reaches time `time`, every promise that has
settled by then runs its continuation, which reads the current value
`index` of the shared counter. -/
def sampleProms (time index : Nat) (ps : List Prom) : List Prom :=
  ps.map (fun p =>
    if p.sampled = none ∧ p.finish ≤ time then { p with sampled := some index } else p)

/-- The inner fill loop: `while (activePromises.length < maxConcurrent
&& index < issues.length)` start the next issue's resolution (its
promise settles `delay` ms from now) and increment `index`.  This loop
is synchronous, so no continuation runs during it.  The fuel only makes
the recursion structural: each pass increments `index`, so
`issues.length - index` steps always exhaust the guard. -/
def fill (issues : List Issue) (maxConcurrent : Nat) : Nat → SimState → SimState
  | 0, s => s
  | fuel + 1, s =>
    if h : s.active.length < maxConcurrent ∧ s.index < issues.length then
      let issue := issues.get ⟨s.index, h.2⟩
      fill issues maxConcurrent fuel
        { s with
          active := s.active ++ [⟨issue, s.time + issue.delay, none⟩]
          index := s.index + 1 }
    else s

def isResolved (p : Prom) : Bool := p.sampled.isSome

/-- Earliest settle time among the active promises. -/
def minFinish : List Prom → Nat
  | [] => 0
  | p :: ps => ps.foldl (fun m q => min m q.finish) p.finish

/-- If no active promise has settled yet, the event loop sleeps until
the earliest settle time, at which point the settling continuations run
(and read the current `index`). -/
def advance (s : SimState) : SimState :=
  if s.active.any isResolved then s
  else
    let t := minFinish s.active
    { s with time := t, active := sampleProms t s.index s.active }

/-- Embedding of `await Promise.race(...)`: the first settled promise (array order
among already-settled ones, mirroring microtask order) wins; its record
is pushed onto `results` and it is spliced out of `activePromises`. -/
def raceStep (s : SimState) : SimState :=
  let s1 := advance s
  match s1.active.findIdx? isResolved with
  | some j =>
    match s1.active[j]? with
    | some p =>
      { s1 with
        results := s1.results ++ [mkRecord (p.sampled.getD s1.index) p.issue]
        active := s1.active.eraseIdx j }
    | none => s1
  | none => s1

/-- Embedding of `await new Promise(resolve => setTimeout(resolve, 500))`: the
event loop sleeps 500 ms; promises settling in that window run their
continuations. -/
def delayStep (s : SimState) : SimState :=
  let t := s.time + 500
  { s with time := t, active := sampleProms t s.index s.active }

/-- One iteration of the outer `while (index < issues.length)` loop:
fill up to `maxConcurrent`, then (if anything is active) race for one
completion and sleep 500 ms.  The high-water mark is recorded after the
fill, when `activePromises.length` peaks. -/
def simIter (issues : List Issue) (maxConcurrent : Nat) (s : SimState) : SimState :=
  let s1 := fill issues maxConcurrent (issues.length - s.index) s
  let s2 := { s1 with hiwater := max s1.hiwater s1.active.length }
  if s2.active.isEmpty then s2 else delayStep (raceStep s2)

/-- The outer loop, driven by fuel.  Each iteration starts at least one
new issue whenever `maxConcurrent ≥ 1` (the loop is only entered with
`activePromises.length < maxConcurrent`), so `issues.length` iterations
always suffice; the fuel only makes termination syntactic. -/
def simLoop (issues : List Issue) (maxConcurrent : Nat) : Nat → SimState → SimState
  | 0, s => s
  | fuel + 1, s =>
    if s.index < issues.length then
      simLoop issues maxConcurrent fuel (simIter issues maxConcurrent s)
    else s

/-- Embedding of `await Promise.all(activePromises)` after the loop: the remaining
promises settle later (no further fill changes `index`), and their
records are pushed in array order. -/
def finishRemaining (s : SimState) : SimState :=
  { s with
    results := s.results ++ s.active.map (fun p => mkRecord (p.sampled.getD s.index) p.issue)
    active := [] }

/-- Ascending sort key of the final
`results.sort((a, b) => a.originalIndex - b.originalIndex)`. -/
def byOriginalIndex : ThrottleRecord → ThrottleRecord → Prop :=
  fun a b => a.originalIndex ≤ b.originalIndex

instance : DecidableRel byOriginalIndex :=
  fun a b => inferInstanceAs (Decidable (a.originalIndex ≤ b.originalIndex))

instance : IsTotal ThrottleRecord byOriginalIndex :=
  ⟨fun a b => le_total a.originalIndex b.originalIndex⟩

instance : IsTrans ThrottleRecord byOriginalIndex :=
  ⟨fun _ _ _ hab hbc => le_trans hab hbc⟩

/-- Final scheduler state of `processIssuesWithThrottling(issues,
resolveFunction, maxConcurrent)` (part_005 lines 116-190), before the
final sort. -/
def processThrottlingState (issues : List Issue) (maxConcurrent : Nat) : SimState :=
  finishRemaining (simLoop issues maxConcurrent issues.length ⟨0, 0, [], [], 0⟩)

/-- Embedding of `processIssuesWithThrottling` result: the pushed records sorted
ascending (stably) by their `originalIndex` field. -/
def processIssuesWithThrottling (issues : List Issue) (maxConcurrent : Nat) :
    List ThrottleRecord :=
  List.insertionSort byOriginalIndex (processThrottlingState issues maxConcurrent).results

/-- An entry of the `errorGroups` array of the batch summary. -/
structure ErrorGroup where
  message : String
  count : Nat
deriving Repr, DecidableEq

/-- Insertion-ordered bump of `errorGroups[message]`, mirroring a JS
object used as a counter (`Object.entries` preserves insertion order). -/
def bumpCount (message : String) : List (String × Nat) → List (String × Nat)
  | [] => [(message, 1)]
  | (k, n) :: rest =>
    if k = message then (k, n + 1) :: rest else (k, n) :: bumpCount message rest

/-- Descending-frequency order of
`.sort((a, b) => b[1] - a[1])` over entry pairs. -/
def byCountDesc : ErrorGroup → ErrorGroup → Prop :=
  fun a b => b.count ≤ a.count

instance : DecidableRel byCountDesc :=
  fun a b => inferInstanceAs (Decidable (b.count ≤ a.count))

instance : IsTotal ErrorGroup byCountDesc :=
  ⟨fun a b => le_total b.count a.count⟩

instance : IsTrans ErrorGroup byCountDesc :=
  ⟨fun _ _ _ hab hbc => le_trans hbc hab⟩

/-- Embedding of `generateBatchSummary(results)` (part_005 lines 197-233): counts,
success rate string, and failures grouped by their raw (unnormalized)
`error` string, sorted by descending frequency - with no cap on the
number of groups. -/
structure BatchSummary where
  total : Nat
  succeeded : Nat
  failed : Nat
  successRate : String
  errorGroups : List ErrorGroup
deriving Repr, DecidableEq

/-- JS truthiness of `result.error` (a string): nonempty. -/
def errTruthy : Option String → Bool
  | some s => s ≠ ""
  | none => false

def generateBatchSummary (results : List ThrottleRecord) : BatchSummary :=
  let succeeded := results.countP (·.success)
  let failed := results.length - succeeded
  let errorGroups := results.foldl
    (fun groups r =>
      if r.success = false ∧ errTruthy r.error then
        bumpCount (r.error.getD "") groups
      else groups) []
  let sortedErrorGroups :=
    (List.insertionSort byCountDesc
      (errorGroups.map (fun e => ⟨e.1, e.2⟩)))
  { total := results.length
    succeeded := succeeded
    failed := failed
    successRate :=
      if results.length = 0 then "NaN%"
      else toString (jsRound ((succeeded : ℚ) / (results.length : ℚ) * 100)) ++ "%"
    errorGroups := sortedErrorGroups }

/-- Embedding of `processBatch(issueList, resolveFunction)` (part_005 lines 21-58):
validate that the input is a non-empty array (throwing before anything
is prioritized or started), prioritize, read `maxConcurrent` from
config (`getConfig('github').maxConcurrent || 3`, passed here already
resolved), process with throttling, compute the summary (used only for
logging), and return the per-issue results. -/
def processBatch (issueList : JsInput Issue) (random : Nat → ℚ) (maxConcurrent : Nat) :
    Except String (List ThrottleRecord) :=
  match issueList with
  | .notArray => .error "Invalid issue list: must be a non-empty array"
  | .arr issues =>
    if issues.length = 0 then
      .error "Invalid issue list: must be a non-empty array"
    else
      let prioritizedIssues := prioritizeIssues issues random
      let results := processIssuesWithThrottling prioritizedIssues maxConcurrent
      let _summary := generateBatchSummary results
      .ok results

end BatchProcessing

namespace BatchProcessing2

/-- An issue object as consumed by the CommonJS batch module; only the
`issueUrl` field is read by the module itself. -/
structure Item where
  issueUrl : String
deriving Repr, DecidableEq

/-- The result object stored into `results[index]`: either whatever the
`processFn` promise resolved with, or the catch-branch object
`{success: false, error: error.message, issueUrl: items[index].issueUrl}`.
Fields not set by the catch branch are `none`. -/
structure ResultObj where
  success : Bool
  error : Option String
  issueUrl : Option String
deriving Repr, DecidableEq

/-- The value stored at `results[index]` for an item, determined by the
`processFn` behaviour alone (the try/catch in `processNext`). -/
def expectedResult (processFn : Item → Except String ResultObj) (item : Item) : ResultObj :=
  match processFn item with
  | .ok r => r
  | .error e => ⟨false, some e, some item.issueUrl⟩

/-- Status of one worker chain created by `processNext()`: `busy idx it`
means the chain is awaiting `processFn(it)` for `items[idx]`; `done`
means its last grab saw `index >= items.length` and the chain
resolved. -/
inductive WStatus where
  | busy : Nat → Item → WStatus
  | done : WStatus
deriving Repr, DecidableEq

/-- Scheduler state of `processWithConcurrencyLimit`: the shared
`currentIndex` counter, the worker chains, and the sparse `results`
array (`new Array(items.length)`, holes as `none`). -/
structure MState where
  currentIndex : Nat
  workers : List WStatus
  results : List (Option ResultObj)
deriving Repr, DecidableEq

/-- Embedding of `const index = currentIndex++; if (index >= items.length) return;`
- the synchronous head of `processNext`: grab the next index (the
counter increments regardless) and either start on that item or
finish. -/
def grabNext (items : List Item) (currentIndex : Nat) : WStatus × Nat :=
  if h : currentIndex < items.length then
    (.busy currentIndex (items.get ⟨currentIndex, h⟩), currentIndex + 1)
  else
    (.done, currentIndex + 1)

/-- The spawn loop `for (let i = 0; i < Math.min(concurrencyLimit,
items.length); i++) workers.push(processNext())`: each call runs
synchronously up to its first await, grabbing one index. -/
def startWorkers (items : List Item) : Nat → Nat × List WStatus
  | 0 => (0, [])
  | k + 1 =>
    let (ci, ws) := startWorkers items k
    let (st, ci') := grabNext items ci
    (ci', ws ++ [st])

def initState (items : List Item) (concurrencyLimit : Nat) : MState :=
  let (ci, ws) := startWorkers items (min concurrencyLimit items.length)
  ⟨ci, ws, List.replicate items.length none⟩

/-- One event-loop step: the `processFn` awaited by worker `w` settles;
the continuation stores the result at `results[index]` (the catch
branch stores the error object) and synchronously re-enters
`processNext`, grabbing the next index or finishing.  Steps naming an
idle or nonexistent worker change nothing. -/
def stepWorker (items : List Item) (processFn : Item → Except String ResultObj)
    (s : MState) (w : Nat) : MState :=
  match s.workers[w]? with
  | some (.busy idx item) =>
    let results := s.results.set idx (some (expectedResult processFn item))
    let (st, ci') := grabNext items s.currentIndex
    ⟨ci', s.workers.set w st, results⟩
  | _ => s

/-- Run the machine under an explicit completion schedule: the k-th
entry names the worker whose awaited `processFn` settles k-th.  The
schedule abstracts the (unspecified) relative latencies of the
concurrent `processFn` calls. -/
def runSched (items : List Item) (processFn : Item → Except String ResultObj)
    (sched : List Nat) (s : MState) : MState :=
  sched.foldl (stepWorker items processFn) s

/-- Embedding of `await Promise.all(workers)` has resolved: every chain is done. -/
def allDone (s : MState) : Bool :=
  s.workers.all (fun st => match st with | .done => true | _ => false)

/-- Number of worker chains currently awaiting a `processFn` call - the
in-flight pipeline count. -/
def busyCount (s : MState) : Nat :=
  s.workers.countP (fun st => match st with | .busy _ _ => true | _ => false)

/-- Final machine state of `processWithConcurrencyLimit(items,
processFn, concurrencyLimit)` (part_005 lines 452-538) under a given
completion schedule. -/
def processWithConcurrencyLimitState (items : List Item)
    (processFn : Item → Except String ResultObj) (concurrencyLimit : Nat)
    (sched : List Nat) : MState :=
  runSched items processFn sched (initState items concurrencyLimit)

/-- The `results` array returned by `processWithConcurrencyLimit`. -/
def processWithConcurrencyLimit (items : List Item)
    (processFn : Item → Except String ResultObj) (concurrencyLimit : Nat)
    (sched : List Nat) : List (Option ResultObj) :=
  (processWithConcurrencyLimitState items processFn concurrencyLimit sched).results

/-- The `batch` config section: `maxConcurrent` and `maxIssuesPerBatch`,
both optional (defaults 3 and 10 via `||`). -/
structure BatchConfig where
  maxConcurrent : Option Nat
  maxIssuesPerBatch : Option Nat
deriving Repr, DecidableEq

/-- Embedding of `processBatch(issueList, resolveFn)` of the CommonJS batch module
(part_005 lines 378-430): reject a non-array or empty list, then limit
the batch to the first `maxIssuesPerBatch` issues
(`issueList.slice(0, maxIssuesPerBatch)`) and process the limited list
with the concurrency limit. -/
def processBatch (issueList : JsInput Item)
    (resolveFn : Item → Except String ResultObj) (batchConfig : BatchConfig)
    (sched : List Nat) : Except String (List (Option ResultObj)) :=
  match issueList with
  | .notArray => .error "Invalid or empty issue list for batch processing"
  | .arr items =>
    if items.length = 0 then
      .error "Invalid or empty issue list for batch processing"
    else
      let maxConcurrent := jsOrNat batchConfig.maxConcurrent 3
      let maxIssuesPerBatch := jsOrNat batchConfig.maxIssuesPerBatch 10
      let limitedIssueList := items.take maxIssuesPerBatch
      .ok (processWithConcurrencyLimit limitedIssueList resolveFn maxConcurrent sched)

end BatchProcessing2

namespace TaskSetup

/-- An issue object as consumed by the task_setup batch functions. -/
structure Issue where
  issueUrl : String
  issueNumber : Nat
  owner : String
  repo : String
deriving Repr, DecidableEq

/-- A per-issue result pushed by `processSequential` /
`processParallel`: issue identification plus either `success: true`
with the resolved value or `success: false` with the error message. -/
structure SeqResult (ρ : Type) where
  issueUrl : String
  issueNumber : Nat
  owner : String
  repo : String
  success : Bool
  result : Option ρ
  error : Option String
deriving Repr, DecidableEq

/-- The record built by the try/catch body of `processSequential` for
one issue, determined by the behaviour of `resolveFunction` on it. -/
def seqRecord {ρ : Type} (resolveFunction : Issue → Except String ρ) (issue : Issue) :
    SeqResult ρ :=
  match resolveFunction issue with
  | .ok r =>
    ⟨issue.issueUrl, issue.issueNumber, issue.owner, issue.repo, true, some r, none⟩
  | .error e =>
    ⟨issue.issueUrl, issue.issueNumber, issue.owner, issue.repo, false, none, some e⟩

/-- Embedding of `processSequential(issueList, resolveFunction)` from
src/modules/task_setup/index.js lines 1275-1333: a `for..of` loop that
awaits each issue in order, pushing a success record on normal return
and a failure record from the catch branch, never rethrowing. -/
def processSequential {ρ : Type} (resolveFunction : Issue → Except String ρ) :
    List Issue → List (SeqResult ρ)
  | [] => []
  | issue :: rest =>
    seqRecord resolveFunction issue :: processSequential resolveFunction rest

/-- Input of `calculatePriority`: severity and type strings (empty
string models an absent field) and the issue age in days, which the
source derives from `issueInfo.createdAt` and the current time. -/
structure IssueInfo where
  severity : String
  itype : String
  ageInDays : ℚ
deriving Repr, DecidableEq

/-- Embedding of `calculatePriority(issueInfo)` from src/modules/task_setup/index.js
lines 1133-1169: base 5; severity critical +3 / high +2 / low -2; age
under 1 day +1, over 30 days -1; bug type +1; rounded and clamped to
1..10. -/
def calculatePriority (issueInfo : IssueInfo) : Int :=
  let score : ℚ := 5 +
    (if issueInfo.severity = "critical" then 3
     else if issueInfo.severity = "high" then 2
     else if issueInfo.severity = "low" then -2 else 0) +
    (if issueInfo.ageInDays < 1 then 1
     else if issueInfo.ageInDays > 30 then -1 else 0) +
    (if issueInfo.itype = "bug" then 1 else 0)
  max 1 (min 10 (jsRound score))

/-- The JS regex class `\s` restricted to ASCII, enough for the error
messages at hand. -/
def jsSpace (c : Char) : Bool :=
  c = ' ' ∨ c = '\t' ∨ c = '\n' ∨ c = '\r' ∨ c = '\x0b' ∨ c = '\x0c'

/-- A character matched by `[^\/\s]` (body of a path segment). -/
def pathSeg (c : Char) : Bool :=
  !(c = '/' : Bool) && !jsSpace c

/-- Embedding of `.replace(/\/[^\/\s]+\//g, '/path/')`: at each `/`, greedily take a
nonempty run of non-slash non-space characters; if it is immediately
closed by another `/`, the whole `/…/` match (including the closing
slash) is consumed and replaced by `/path/`; scanning resumes after the
match.  Every scan pass below is driven by fuel to keep the recursion
structural; each step consumes at least one input character, so fuel
equal to the input length always finishes the scan. -/
def pathPass : Nat → List Char → List Char
  | _, [] => []
  | 0, l => l
  | fuel + 1, c :: rest =>
    if c = '/' then
      match rest.takeWhile pathSeg, rest.dropWhile pathSeg with
      | _ :: _, '/' :: rest3 =>
        '/' :: 'p' :: 'a' :: 't' :: 'h' :: '/' :: pathPass fuel rest3
      | _, _ => c :: pathPass fuel rest
    else c :: pathPass fuel rest

/-- Embedding of `.replace(/#\d+/g, '#XX')`: a `#` followed by at least one digit
becomes `#XX`. -/
def hashNumPass : Nat → List Char → List Char
  | _, [] => []
  | 0, l => l
  | fuel + 1, c :: rest =>
    if c = '#' then
      match rest.takeWhile Char.isDigit with
      | [] => c :: hashNumPass fuel rest
      | _ :: _ => '#' :: 'X' :: 'X' :: hashNumPass fuel (rest.dropWhile Char.isDigit)
    else c :: hashNumPass fuel rest

/-- Embedding of `.replace(/\d+/g, 'XX')`: every maximal digit run becomes `XX`. -/
def numPass : Nat → List Char → List Char
  | _, [] => []
  | 0, l => l
  | fuel + 1, c :: rest =>
    if c.isDigit then
      'X' :: 'X' :: numPass fuel (rest.dropWhile Char.isDigit)
    else c :: numPass fuel rest

/-- A character matched by `.` (no `s` flag): anything but a line
terminator. -/
def dotChar (c : Char) : Bool :=
  !(c = '\n' : Bool) && !(c = '\r' : Bool)

/-- Scan for the closing quote of a lazy `.+?` match whose first
content character has already been consumed: stop at the first quote,
keep going over `.`-matchable characters, fail on a line terminator or
end of input.  Returns the remaining input after the closing quote. -/
def goClose (q : Char) : List Char → Option (List Char)
  | [] => none
  | d :: ds => if d = q then some ds else if dotChar d then goClose q ds else none

/-- Find the end of a `q.+?q` match starting right after the opening
quote: the content needs at least one `.`-matchable character, then
`goClose` finds the nearest closing quote. -/
def findClose (q : Char) : List Char → Option (List Char)
  | [] => none
  | c :: cs => if dotChar c then goClose q cs else none

/-- Embedding of `.replace(/q.+?q/g, 'qXXXq')` for a quote character `q` (double or
single quotes): the lazy body matches up to the nearest closing quote;
if no close exists before a line terminator or end of input, the
opening quote is left alone and scanning continues after it. -/
def quotePass (q : Char) : Nat → List Char → List Char
  | _, [] => []
  | 0, l => l
  | fuel + 1, c :: rest =>
    if c = q then
      match findClose q rest with
      | some rest2 => q :: 'X' :: 'X' :: 'X' :: q :: quotePass q fuel rest2
      | none => c :: quotePass q fuel rest
    else c :: quotePass q fuel rest

/-- Embedding of `simplifyErrorMessage(errorMessage)` from
src/modules/task_setup/index.js lines 1597-1631: falsy input (modelled
as the empty string) yields `Unknown error`; otherwise the five
`.replace` passes run in order (paths, `#`-numbers, numbers, double
quotes, single quotes) and the result is truncated to 100 characters
with a `...` suffix when longer. -/
def simplifyErrorMessage (errorMessage : String) : String :=
  if errorMessage = "" then "Unknown error"
  else
    let l0 := errorMessage.toList
    let l1 := pathPass l0.length l0
    let l2 := hashNumPass l1.length l1
    let l3 := numPass l2.length l2
    let l4 := quotePass '"' l3.length l3
    let simplified := quotePass '\'' l4.length l4
    if simplified.length > 100 then
      String.mk (simplified.take 100) ++ "..."
    else String.mk simplified

/-- A result object as consumed by `getBatchStatistics`. -/
structure StatResult where
  owner : String
  repo : String
  success : Bool
  error : Option String
deriving Repr, DecidableEq

/-- One value of the `repositories` grouping. -/
structure RepoStat where
  total : Nat
  success : Nat
  failure : Nat
deriving Repr, DecidableEq

/-- Insertion-ordered update of `repositories[repoKey]`. -/
def bumpRepo (key : String) (succ : Bool) : List (String × RepoStat) → List (String × RepoStat)
  | [] => [(key, ⟨1, if succ then 1 else 0, if succ then 0 else 1⟩)]
  | (k, st) :: rest =>
    if k = key then
      (k, ⟨st.total + 1,
           (if succ then st.success + 1 else st.success),
           (if succ then st.failure else st.failure + 1)⟩) :: rest
    else (k, st) :: bumpRepo key succ rest

/-- Return value of `getBatchStatistics`. -/
structure BatchStatistics where
  totalIssues : Nat
  successCount : Nat
  failureCount : Nat
  successRate : ℚ
  repositories : List (String × RepoStat)
  commonErrors : List BatchProcessing.ErrorGroup
deriving Repr, DecidableEq

/-- JS truthiness of `result.error`. -/
def errTruthy : Option String → Bool
  | some s => s ≠ ""
  | none => false

/-- The raw, insertion-ordered error counter built by
`getBatchStatistics`: failures counted under their simplified
message. -/
def errorCountsOf (results : List StatResult) : List (String × Nat) :=
  results.foldl
    (fun counts r =>
      if r.success = false ∧ errTruthy r.error then
        BatchProcessing.bumpCount (simplifyErrorMessage (r.error.getD "")) counts
      else counts) []

/-- Embedding of `getBatchStatistics(results)` from src/modules/task_setup/index.js
lines 1469-1581: success/failure counts, a two-decimal success rate,
per-repository totals, and the failure messages grouped by
`simplifyErrorMessage`, sorted by descending count and cut to the top
5. -/
def getBatchStatistics (results : List StatResult) : BatchStatistics :=
  let totalIssues := results.length
  let successCount := results.countP (·.success)
  let failureCount := totalIssues - successCount
  let successRate : ℚ :=
    if totalIssues > 0 then (successCount : ℚ) / (totalIssues : ℚ) * 100 else 0
  let repositories := results.foldl
    (fun repos r => bumpRepo (r.owner ++ "/" ++ r.repo) r.success repos) []
  let commonErrors :=
    (List.insertionSort BatchProcessing.byCountDesc
      ((errorCountsOf results).map (fun e => ⟨e.1, e.2⟩))).take 5
  { totalIssues := totalIssues
    successCount := successCount
    failureCount := failureCount
    successRate := (jsRound (successRate * 100) : ℚ) / 100
    repositories := repositories
    commonErrors := commonErrors }

end TaskSetup

namespace BatchProcessing2

/-- Verification invariant of the worker machine: the results array is
sized to the items; every busy worker chain holds an index below the
shared counter together with that index's item; every index below the
counter is either already filled with its item's result or owned by a
busy worker; indices at or above the counter are still holes; and a
finished chain implies the counter has exhausted the items. -/
def MInv (items : List Item) (f : Item → Except String ResultObj) (s : MState) : Prop :=
  s.results.length = items.length ∧
  (∀ (p idx : Nat) (it : Item), s.workers[p]? = some (.busy idx it) →
    idx < s.currentIndex ∧ items[idx]? = some it) ∧
  (∀ i : Nat, i < s.currentIndex →
    s.results[i]? = (items[i]?).map (fun it => some (expectedResult f it)) ∨
      ∃ (p : Nat) (it : Item), s.workers[p]? = some (.busy i it)) ∧
  (∀ i : Nat, s.currentIndex ≤ i → i < items.length → s.results[i]? = some none) ∧
  (WStatus.done ∈ s.workers → items.length ≤ s.currentIndex)

end BatchProcessing2

/-! ## Theorems -/

namespace CodeGeneration

theorem refineCode_eq {γ P R : Type}
    (grp : List γ → ValidationResult → P) (g : P → R) (ex : R → List γ)
    (exE : R → String) (v : List γ → ValidationResult)
    (c : List γ) (vr : ValidationResult) (a : Nat) :
    refineCode grp g ex exE v c vr a =
      (if (v (ex (g (grp c vr)))).valid = false ∧ a + 1 < 3 then
        refineCode grp g ex exE v (ex (g (grp c vr))) (v (ex (g (grp c vr)))) (a + 1)
      else
        { codeChanges := ex (g (grp c vr))
          explanation := exE (g (grp c vr))
          validationResult := v (ex (g (grp c vr)))
          refinementAttempts := a + 1 }) := by
  rw [refineCode]
  exact dite_eq_ite ..

theorem refineCodeCycles_eq {γ P R : Type}
    (grp : List γ → ValidationResult → P) (g : P → R) (ex : R → List γ)
    (v : List γ → ValidationResult)
    (c : List γ) (vr : ValidationResult) (a : Nat) :
    refineCodeCycles grp g ex v c vr a =
      (if (v (ex (g (grp c vr)))).valid = false ∧ a + 1 < 3 then
        1 + refineCodeCycles grp g ex v (ex (g (grp c vr))) (v (ex (g (grp c vr)))) (a + 1)
      else 1) := by
  rw [refineCodeCycles]
  exact dite_eq_ite ..

/-- The refine loop records, in `refinementAttempts`, its starting
counter plus the number of generate+validate cycles it executed. -/
theorem refineCode_attempts_eq_cycles {γ P R : Type}
    (grp : List γ → ValidationResult → P) (g : P → R) (ex : R → List γ)
    (exE : R → String) (v : List γ → ValidationResult) :
    ∀ (d a : Nat) (c : List γ) (vr : ValidationResult), 3 - a ≤ d →
      (refineCode grp g ex exE v c vr a).refinementAttempts =
        a + refineCodeCycles grp g ex v c vr a := by
  intro d
  induction d with
  | zero =>
    intro a c vr hd
    rw [refineCode_eq, refineCodeCycles_eq]
    have h3 : ¬(a + 1 < 3) := by omega
    rw [if_neg (by tauto), if_neg (by tauto)]
  | succ d ih =>
    intro a c vr _hd
    rw [refineCode_eq, refineCodeCycles_eq]
    by_cases hc : (v (ex (g (grp c vr)))).valid = false ∧ a + 1 < 3
    · rw [if_pos hc, if_pos hc]
      rw [ih (a + 1) _ _ (by omega)]
      omega
    · rw [if_neg hc, if_neg hc]

/-- The number of cycles of the refine loop is bounded: at most
`3 - a` cycles remain when the counter already stands at `a < 3`, and
a single cycle runs otherwise. -/
theorem refineCodeCycles_le {γ P R : Type}
    (grp : List γ → ValidationResult → P) (g : P → R) (ex : R → List γ)
    (v : List γ → ValidationResult) :
    ∀ (d a : Nat) (c : List γ) (vr : ValidationResult), 3 - a ≤ d →
      1 ≤ refineCodeCycles grp g ex v c vr a ∧
        refineCodeCycles grp g ex v c vr a ≤ max 1 (3 - a) := by
  intro d
  induction d with
  | zero =>
    intro a c vr hd
    rw [refineCodeCycles_eq]
    have h3 : ¬(a + 1 < 3) := by omega
    rw [if_neg (by tauto)]
    omega
  | succ d ih =>
    intro a c vr _hd
    rw [refineCodeCycles_eq]
    by_cases hc : (v (ex (g (grp c vr)))).valid = false ∧ a + 1 < 3
    · rw [if_pos hc]
      have := ih (a + 1) (ex (g (grp c vr))) (v (ex (g (grp c vr)))) (by omega)
      have h2 := hc.2
      omega
    · rw [if_neg hc]
      omega

end CodeGeneration

/-- Claim C4: if validation fails on every candidate, the refinement
loop performs exactly 3 (the hard-coded maximum) generate+validate
cycles, and the returned object carries `refinementAttempts = 3`, a
failed validation result (`valid = false` - the condition the spec
names `ValidationExhausted`: the loop ran out of attempts), and the
last generated candidate together with its validation issues. -/
theorem c4_validation_exhausted {γ P R : Type}
    (grp : List γ → CodeGeneration.ValidationResult → P) (g : P → R)
    (ex : R → List γ) (exE : R → String)
    (v : List γ → CodeGeneration.ValidationResult)
    (hv : ∀ c, (v c).valid = false)
    (c0 : List γ) (vr0 : CodeGeneration.ValidationResult) :
    CodeGeneration.refineCode grp g ex exE v c0 vr0 0 =
      (let c1 := ex (g (grp c0 vr0))
       let c2 := ex (g (grp c1 (v c1)))
       let c3 := ex (g (grp c2 (v c2)))
       { codeChanges := c3
         explanation := exE (g (grp c2 (v c2)))
         validationResult := v c3
         refinementAttempts := 3 }) ∧
    CodeGeneration.refineCodeCycles grp g ex v c0 vr0 0 = 3 ∧
    (CodeGeneration.refineCode grp g ex exE v c0 vr0 0).validationResult.valid = false := by
  have key : CodeGeneration.refineCode grp g ex exE v c0 vr0 0 =
      (let c1 := ex (g (grp c0 vr0))
       let c2 := ex (g (grp c1 (v c1)))
       let c3 := ex (g (grp c2 (v c2)))
       { codeChanges := c3
         explanation := exE (g (grp c2 (v c2)))
         validationResult := v c3
         refinementAttempts := 3 }) := by
    rw [CodeGeneration.refineCode_eq, if_pos ⟨hv _, by omega⟩]
    rw [CodeGeneration.refineCode_eq, if_pos ⟨hv _, by omega⟩]
    rw [CodeGeneration.refineCode_eq, if_neg (by omega)]
  refine ⟨key, ?_, ?_⟩
  · rw [CodeGeneration.refineCodeCycles_eq, if_pos ⟨hv _, by omega⟩]
    rw [CodeGeneration.refineCodeCycles_eq, if_pos ⟨hv _, by omega⟩]
    rw [CodeGeneration.refineCodeCycles_eq, if_neg (by omega)]
  · rw [key]
    exact hv _

/-- Witness for C4 at a concrete instantiation: candidates are lists of
naturals, the model maps prompt n to response n + 1, extraction wraps
the response, and validation always fails. -/
theorem c4_validation_exhausted_witness :
    (∀ c : List Nat,
      ((fun _ => (⟨false, ["bad"]⟩ : CodeGeneration.ValidationResult)) c).valid = false) ∧
    CodeGeneration.refineCode (fun c _ => c.headD 0) (fun p => p + 1) (fun r => [r])
      (fun _ => "expl") (fun _ => ⟨false, ["bad"]⟩) [0] ⟨false, ["seed"]⟩ 0 =
      ⟨[3], "expl", ⟨false, ["bad"]⟩, 3⟩ ∧
    CodeGeneration.refineCodeCycles (fun c _ => c.headD 0) (fun p => p + 1) (fun r => [r])
      (fun _ => ⟨false, ["bad"]⟩) [0] ⟨false, ["seed"]⟩ 0 = 3 := by
  have h := c4_validation_exhausted (fun c _ => c.headD 0) (fun p => p + 1) (fun r => [r])
    (fun _ => "expl") (fun _ => ⟨false, ["bad"]⟩) (fun _ => rfl) [0] ⟨false, ["seed"]⟩
  exact ⟨fun _ => rfl, h.1, h.2.1⟩

/-- Claim C6 counterexample: with a generator/validator for which the
first generate+validate cycle fails and the second succeeds (the
claim's own "validation succeeds on the 2nd of 3 allowed attempts"
scenario), two cycles execute in total but the per-item result records
`refinementAttempts = some 1`, not 2: the field counts only the
refine-loop cycles, excluding the initial cycle of
`generateAndValidateCode`. -/
theorem c6_counterexample :
    (CodeGeneration.generateAndValidateCode (fun c _ => c.headD 0) (fun p => p + 1)
        (fun r => [r]) (fun _ => "expl")
        (fun c => if c = [2] then ⟨true, []⟩ else ⟨false, ["bad"]⟩) 0).map
      (fun r => r.refinementAttempts) = .ok (some 1) ∧
    CodeGeneration.generateAndValidateCodeCycles (fun c _ => c.headD 0) (fun p => p + 1)
      (fun r => [r]) (fun c => if c = [2] then ⟨true, []⟩ else ⟨false, ["bad"]⟩) 0 = 2 ∧
    some 1 ≠ some 2 := by
  refine ⟨?_, ?_, by decide⟩ <;>
  · simp [CodeGeneration.generateAndValidateCode, CodeGeneration.generateAndValidateCodeCycles,
      CodeGeneration.refineCode_eq, CodeGeneration.refineCodeCycles_eq, Except.map]

/-- Claim C6 amended: the `refinementAttempts` recorded by the refine
loop equals its starting counter plus the number of generate+validate
cycles the loop itself executed (so exactly the loop's cycle count
when it starts at 0, and at least 1); `generateAndValidateCode`
propagates it as `some` of the loop's cycle count when the first
validation fails, and returns a result with no attempts field at all
when the first validation succeeds - the initial generate+validate
cycle is never counted. -/
theorem c6_amended {γ P R : Type}
    (grp : List γ → CodeGeneration.ValidationResult → P) (g : P → R)
    (ex : R → List γ) (exE : R → String)
    (v : List γ → CodeGeneration.ValidationResult) :
    (∀ (c : List γ) (vr : CodeGeneration.ValidationResult) (a : Nat),
      (CodeGeneration.refineCode grp g ex exE v c vr a).refinementAttempts =
        a + CodeGeneration.refineCodeCycles grp g ex v c vr a) ∧
    (∀ (c : List γ) (vr : CodeGeneration.ValidationResult) (a : Nat),
      1 ≤ CodeGeneration.refineCodeCycles grp g ex v c vr a) ∧
    (∀ prompt : P,
      (CodeGeneration.generateAndValidateCode grp g ex exE v prompt).map
          (fun r => r.refinementAttempts) =
        if (ex (g prompt)).isEmpty then
          .error "Code generation failed: No valid code changes were generated"
        else if (v (ex (g prompt))).valid = false then
          .ok (some (CodeGeneration.refineCodeCycles grp g ex v
            (ex (g prompt)) (v (ex (g prompt))) 0))
        else .ok none) := by
  refine ⟨?_, ?_, ?_⟩
  · intro c vr a
    exact CodeGeneration.refineCode_attempts_eq_cycles grp g ex exE v (3 - a) a c vr le_rfl
  · intro c vr a
    exact (CodeGeneration.refineCodeCycles_le grp g ex v (3 - a) a c vr le_rfl).1
  · intro prompt
    unfold CodeGeneration.generateAndValidateCode
    by_cases he : (ex (g prompt)).isEmpty
    · rw [if_pos he, if_pos he]
      rfl
    · rw [if_neg he, if_neg he]
      by_cases hvp : (v (ex (g prompt))).valid = false
      · rw [if_pos hvp, if_pos hvp]
        have := CodeGeneration.refineCode_attempts_eq_cycles grp g ex exE v 3 0
          (ex (g prompt)) (v (ex (g prompt))) (by omega)
        simp [Except.map, this]
      · rw [if_neg hvp, if_neg hvp]
        rfl

/-- Claim C9: the refine loop terminates for every behaviour of the
external generator and validator - the number of generate+validate
cycles it executes is at most 3 (the hard ceiling) when entered with
the counter at 0, and at most `max 1 (3 - a)` in general. -/
theorem c9_refine_termination {γ P R : Type}
    (grp : List γ → CodeGeneration.ValidationResult → P) (g : P → R)
    (ex : R → List γ) (v : List γ → CodeGeneration.ValidationResult) :
    (∀ (c : List γ) (vr : CodeGeneration.ValidationResult),
      CodeGeneration.refineCodeCycles grp g ex v c vr 0 ≤ 3) ∧
    (∀ (c : List γ) (vr : CodeGeneration.ValidationResult) (a : Nat),
      CodeGeneration.refineCodeCycles grp g ex v c vr a ≤ max 1 (3 - a)) := by
  constructor
  · intro c vr
    have := (CodeGeneration.refineCodeCycles_le grp g ex v 3 0 c vr (by omega)).2
    omega
  · intro c vr a
    exact (CodeGeneration.refineCodeCycles_le grp g ex v (3 - a) a c vr le_rfl).2

/-- Claim C1 is violated by the code (contradicting the code's own
comments `Create a promise that includes the issue index for tracking`
and `Sort results back into original order`): the promise body of
`processIssuesWithThrottling` evaluates `originalIndex: index` only
after `await resolveFunction(issue)`, so it samples the shared mutable
`index` counter at completion time instead of the item's submission
position.  At the spec's own test input - five issues with resolution
delays [50, 10, 30, 5, 20] ms and maxConcurrent = 2 - the recorded
`originalIndex` values are [2, 2, 3, 4, 5] and the final sort returns
the results in the order [item2, item1, item3, item4, item5] instead
of submission order [item1, ..., item5]. -/
theorem c1_order_not_preserved :
    (BatchProcessing.processIssuesWithThrottling
        [⟨[], 0, 50, .ok "r0", none⟩, ⟨[], 0, 10, .ok "r1", none⟩,
         ⟨[], 0, 30, .ok "r2", none⟩, ⟨[], 0, 5, .ok "r3", none⟩,
         ⟨[], 0, 20, .ok "r4", none⟩] 2).map
      (fun r => (r.originalIndex, r.result)) =
      [(2, some "r1"), (2, some "r0"), (3, some "r2"), (4, some "r3"), (5, some "r4")] ∧
    (BatchProcessing.processIssuesWithThrottling
        [⟨[], 0, 50, .ok "r0", none⟩, ⟨[], 0, 10, .ok "r1", none⟩,
         ⟨[], 0, 30, .ok "r2", none⟩, ⟨[], 0, 5, .ok "r3", none⟩,
         ⟨[], 0, 20, .ok "r4", none⟩] 2).map (fun r => r.result) ≠
      [some "r0", some "r1", some "r2", some "r3", some "r4"] := by
  constructor <;> decide

/-- Claim C10: both `processBatch` variants throw
`Invalid issue list: must be a non-empty array` for a non-array or
empty input - independently of the resolve behaviour and the
concurrency configuration, hence before anything is prioritized or
started - and a result list is produced exactly for non-empty array
inputs. -/
theorem c10_empty_input_guard :
    (∀ (random : Nat → ℚ) (maxConcurrent : Nat),
      BatchProcessing.processBatch .notArray random maxConcurrent =
        .error "Invalid issue list: must be a non-empty array") ∧
    (∀ (random : Nat → ℚ) (maxConcurrent : Nat),
      BatchProcessing.processBatch (.arr []) random maxConcurrent =
        .error "Invalid issue list: must be a non-empty array") ∧
    (∀ (issues : List BatchProcessing.Issue) (random : Nat → ℚ) (maxConcurrent : Nat),
      issues ≠ [] ↔
        ∃ res, BatchProcessing.processBatch (.arr issues) random maxConcurrent = .ok res) := by
  refine ⟨fun _ _ => rfl, fun _ _ => rfl, fun issues random maxConcurrent => ?_⟩
  constructor
  · intro hne
    cases issues with
    | nil => exact absurd rfl hne
    | cons i rest =>
      exact ⟨BatchProcessing.processIssuesWithThrottling
          (BatchProcessing.prioritizeIssues (i :: rest) random) maxConcurrent,
        by simp [BatchProcessing.processBatch]⟩
  · intro ⟨res, hres⟩
    intro hnil
    subst hnil
    simp [BatchProcessing.processBatch] at hres

/-- Witness for C10: a singleton batch produces a result list. -/
theorem c10_empty_input_guard_witness :
    ∃ res, BatchProcessing.processBatch (.arr [⟨[], 0, 10, .ok "z", none⟩])
      (fun _ => 0) 3 = .ok res :=
  (c10_empty_input_guard.2.2 [⟨[], 0, 10, .ok "z", none⟩] (fun _ => 0) 3).mp (by decide)

/-- Claim C8 counterexample: a fresh issue (age 0 days, under 1 day)
with no labels receives priority score 0 (plus the perturbation, here
fixed to 0) from `prioritizeIssues` - not 1 as the claim's `+1 if the
item is less than 1 day old` demands: the batch prioritizer scores
labels only and ignores item age entirely. -/
theorem c8_counterexample :
    ((BatchProcessing.prioritizeIssues [⟨[], 0, 10, .ok "x", none⟩] (fun _ => 0)).map
      (fun i => i.priorityScore)) = [some 0] ∧
    BatchProcessing.labelScore [] + (if (0 : ℚ) < 1 then 1 else 0) + 0 = 1 ∧
    some (0 : ℚ) ≠ some (1 : ℚ) := by
  refine ⟨?_, by norm_num [BatchProcessing.labelScore], by norm_num⟩
  simp [BatchProcessing.prioritizeIssues, BatchProcessing.labelScore,
    List.insertionSort, List.mapIdx_cons]

/-- Claim C8 amended: `prioritizeIssues` assigns each issue the score
10 per label in the fixed list [high-priority, priority, critical,
urgent] plus 5 if a `bug` label is present plus the random
perturbation, with no age component, and returns the scored issues
stably sorted in descending score order; the age adjustments (+1 under
1 day, -1 over 30 days) live in the separate task-setup
`calculatePriority`, which starts from base 5. -/
theorem c8_amended :
    (∀ (issues : List BatchProcessing.Issue) (random : Nat → ℚ),
      List.Sorted BatchProcessing.byScoreDesc
        (BatchProcessing.prioritizeIssues issues random)) ∧
    (∀ (issues : List BatchProcessing.Issue) (random : Nat → ℚ),
      (BatchProcessing.prioritizeIssues issues random).Perm
        (issues.mapIdx (fun i issue =>
          { issue with
            priorityScore := some (BatchProcessing.labelScore issue.labels + random i) }))) ∧
    BatchProcessing.labelScore ["urgent", "critical"] = 20 ∧
    BatchProcessing.labelScore ["bug"] = 5 ∧
    BatchProcessing.labelScore [] = 0 ∧
    TaskSetup.calculatePriority ⟨"", "", 0⟩ = 6 ∧
    TaskSetup.calculatePriority ⟨"", "", 10⟩ = 5 ∧
    TaskSetup.calculatePriority ⟨"", "", 40⟩ = 4 := by
  refine ⟨?_, ?_,
    by simp [BatchProcessing.labelScore, BatchProcessing.priorityLabels] <;> norm_num,
    by simp [BatchProcessing.labelScore, BatchProcessing.priorityLabels] <;> norm_num,
    by simp [BatchProcessing.labelScore, BatchProcessing.priorityLabels] <;> norm_num,
    by simp [TaskSetup.calculatePriority, jsRound] <;> norm_num,
    by simp [TaskSetup.calculatePriority, jsRound] <;> norm_num,
    by simp [TaskSetup.calculatePriority, jsRound] <;> norm_num⟩
  · intro issues random
    exact List.sorted_insertionSort BatchProcessing.byScoreDesc _
  · intro issues random
    exact List.perm_insertionSort BatchProcessing.byScoreDesc _

/-- Claim C7 counterexample: `simplifyErrorMessage` replaces numbers,
quoted substrings and slash-delimited path segments, but
`File not found: a.js` contains none of these, so it is left unchanged;
the two messages for `a.js` and `b.js` therefore remain distinct and
`getBatchStatistics` produces two groups of count 1, not a single
group of count 2. -/
theorem c7_counterexample :
    TaskSetup.simplifyErrorMessage "File not found: a.js" = "File not found: a.js" ∧
    TaskSetup.simplifyErrorMessage "File not found: b.js" = "File not found: b.js" ∧
    (TaskSetup.getBatchStatistics
      [⟨"o", "r", false, some "File not found: a.js"⟩,
       ⟨"o", "r", false, some "File not found: b.js"⟩]).commonErrors =
      [⟨"File not found: a.js", 1⟩, ⟨"File not found: b.js", 1⟩] := by
  exact ⟨by decide, by decide, by decide⟩

/-- Claim C7 amended: failed results are grouped by the normalized
message of `simplifyErrorMessage` (numbers, quoted substrings and
slash-delimited path segments replaced by placeholders); groups are
ranked by descending frequency and only the top 5 retained - but
messages differing in a bare file name, such as `File not found: a.js`
and `File not found: b.js`, normalize to themselves and stay in
separate groups of count 1 each (identical messages do share a group,
as the repeated `a.js` message shows). -/
theorem c7_amended :
    (∀ results, List.Sorted BatchProcessing.byCountDesc
      (TaskSetup.getBatchStatistics results).commonErrors) ∧
    (∀ results, (TaskSetup.getBatchStatistics results).commonErrors.length ≤ 5) ∧
    (TaskSetup.getBatchStatistics
      [⟨"o", "r", false, some "File not found: a.js"⟩,
       ⟨"o", "r", false, some "File not found: a.js"⟩,
       ⟨"o", "r", false, some "File not found: b.js"⟩]).commonErrors =
      [⟨"File not found: a.js", 2⟩, ⟨"File not found: b.js", 1⟩] := by
  refine ⟨?_, ?_, by decide⟩
  · intro results
    exact (List.sorted_insertionSort BatchProcessing.byCountDesc _).sublist
      (List.take_sublist 5 _)
  · intro results
    exact List.length_take_le 5 _

/-- Claim C5: per-item fault isolation.  For the sequential path, the
result list has exactly one entry per issue and the entry at position
`i` is fully determined by `resolveFunction`'s behaviour on issue `i`
alone (`seqRecord`: a caught error becomes `success = false` with the
message recorded, a normal return becomes `success = true`), so no
per-item error can abort or perturb the rest of the batch.  For the
concurrent path, a concrete three-issue run in which the middle
`resolveFunction` call rejects still yields a terminal record for all
three issues, with the rejection converted in place. -/
theorem c5_fault_isolation :
    (∀ (ρ : Type) (resolveFunction : TaskSetup.Issue → Except String ρ)
        (issues : List TaskSetup.Issue),
      (TaskSetup.processSequential resolveFunction issues).length = issues.length) ∧
    (∀ (ρ : Type) (resolveFunction : TaskSetup.Issue → Except String ρ)
        (issues : List TaskSetup.Issue) (i : Nat),
      (TaskSetup.processSequential resolveFunction issues)[i]? =
        (issues[i]?).map (TaskSetup.seqRecord resolveFunction)) ∧
    (BatchProcessing.processIssuesWithThrottling
        [⟨[], 0, 10, .ok "a", none⟩, ⟨[], 0, 20, .error "boom", none⟩,
         ⟨[], 0, 30, .ok "c", none⟩] 2).map
      (fun r => (r.success, r.result, r.error)) =
      [(true, some "a", none), (false, none, some "boom"), (true, some "c", none)] := by
  have hmap : ∀ (ρ : Type) (resolveFunction : TaskSetup.Issue → Except String ρ)
      (issues : List TaskSetup.Issue),
      TaskSetup.processSequential resolveFunction issues =
        issues.map (TaskSetup.seqRecord resolveFunction) := by
    intro ρ resolveFunction issues
    induction issues with
    | nil => rfl
    | cons issue rest ih => simp [TaskSetup.processSequential, ih]
  refine ⟨?_, ?_, by decide⟩
  · intro ρ resolveFunction issues
    rw [hmap]
    exact List.length_map ..
  · intro ρ resolveFunction issues i
    rw [hmap]
    exact List.getElem?_map ..

namespace BatchProcessing

theorem fill_active_le (issues : List Issue) (maxConcurrent : Nat) :
    ∀ (fuel : Nat) (s : SimState), s.active.length ≤ maxConcurrent →
      (fill issues maxConcurrent fuel s).active.length ≤ maxConcurrent := by
  intro fuel
  induction fuel with
  | zero => intro s hs; exact hs
  | succ fuel ih =>
    intro s hs
    rw [fill]
    by_cases h : s.active.length < maxConcurrent ∧ s.index < issues.length
    · rw [dif_pos h]
      apply ih
      simp only [List.length_append, List.length_cons, List.length_nil]
      omega
    · rw [dif_neg h]
      exact hs

theorem fill_hiwater (issues : List Issue) (maxConcurrent : Nat) :
    ∀ (fuel : Nat) (s : SimState),
      (fill issues maxConcurrent fuel s).hiwater = s.hiwater := by
  intro fuel
  induction fuel with
  | zero => intro s; rfl
  | succ fuel ih =>
    intro s
    rw [fill]
    by_cases h : s.active.length < maxConcurrent ∧ s.index < issues.length
    · rw [dif_pos h]; exact ih _
    · rw [dif_neg h]

theorem sampleProms_length (time index : Nat) (ps : List Prom) :
    (sampleProms time index ps).length = ps.length :=
  List.length_map ..

theorem advance_active_length (s : SimState) :
    (advance s).active.length = s.active.length := by
  unfold advance
  by_cases h : s.active.any isResolved
  · rw [if_pos h]
  · rw [if_neg h]
    exact sampleProms_length ..

theorem advance_hiwater (s : SimState) : (advance s).hiwater = s.hiwater := by
  unfold advance
  by_cases h : s.active.any isResolved
  · rw [if_pos h]
  · rw [if_neg h]

theorem raceStep_active_le (s : SimState) :
    (raceStep s).active.length ≤ s.active.length := by
  unfold raceStep
  dsimp only
  split
  · split
    · exact le_trans (List.length_eraseIdx_le ..) (le_of_eq (advance_active_length s))
    · exact le_of_eq (advance_active_length s)
  · exact le_of_eq (advance_active_length s)

theorem raceStep_hiwater (s : SimState) : (raceStep s).hiwater = s.hiwater := by
  unfold raceStep
  dsimp only
  split
  · split
    · exact advance_hiwater s
    · exact advance_hiwater s
  · exact advance_hiwater s

theorem delayStep_active_length (s : SimState) :
    (delayStep s).active.length = s.active.length :=
  sampleProms_length ..

theorem delayStep_hiwater (s : SimState) : (delayStep s).hiwater = s.hiwater := rfl

theorem simIter_bounds (issues : List Issue) (maxConcurrent : Nat) (s : SimState)
    (ha : s.active.length ≤ maxConcurrent) (hh : s.hiwater ≤ maxConcurrent) :
    (simIter issues maxConcurrent s).active.length ≤ maxConcurrent ∧
      (simIter issues maxConcurrent s).hiwater ≤ maxConcurrent := by
  unfold simIter
  have h1 := fill_active_le issues maxConcurrent (issues.length - s.index) s ha
  have h2 := fill_hiwater issues maxConcurrent (issues.length - s.index) s
  set s1 := fill issues maxConcurrent (issues.length - s.index) s with hs1
  by_cases he : ({ s1 with hiwater := max s1.hiwater s1.active.length } : SimState).active.isEmpty
  · rw [if_pos he]
    constructor
    · exact h1
    · simp only
      rw [h2]
      omega
  · rw [if_neg he]
    constructor
    · calc (delayStep (raceStep { s1 with hiwater := max s1.hiwater s1.active.length })).active.length
          = (raceStep { s1 with hiwater := max s1.hiwater s1.active.length }).active.length :=
            delayStep_active_length ..
        _ ≤ ({ s1 with hiwater := max s1.hiwater s1.active.length } : SimState).active.length :=
            raceStep_active_le ..
        _ ≤ maxConcurrent := h1
    · rw [delayStep_hiwater, raceStep_hiwater]
      simp only
      rw [h2]
      omega

theorem simLoop_bounds (issues : List Issue) (maxConcurrent : Nat) :
    ∀ (fuel : Nat) (s : SimState), s.active.length ≤ maxConcurrent →
      s.hiwater ≤ maxConcurrent →
      (simLoop issues maxConcurrent fuel s).active.length ≤ maxConcurrent ∧
        (simLoop issues maxConcurrent fuel s).hiwater ≤ maxConcurrent := by
  intro fuel
  induction fuel with
  | zero => intro s ha hh; exact ⟨ha, hh⟩
  | succ fuel ih =>
    intro s ha hh
    rw [simLoop]
    by_cases h : s.index < issues.length
    · rw [if_pos h]
      have := simIter_bounds issues maxConcurrent s ha hh
      exact ih _ this.1 this.2
    · rw [if_neg h]
      exact ⟨ha, hh⟩

end BatchProcessing

namespace BatchProcessing2

theorem stepWorker_workers_length (items : List Item)
    (processFn : Item → Except String ResultObj) (s : MState) (w : Nat) :
    (stepWorker items processFn s w).workers.length = s.workers.length := by
  unfold stepWorker
  match h : s.workers[w]? with
  | some (.busy idx item) => simp only; exact List.length_set ..
  | some .done => simp only
  | none => simp only

theorem runSched_workers_length (items : List Item)
    (processFn : Item → Except String ResultObj) :
    ∀ (sched : List Nat) (s : MState),
      (runSched items processFn sched s).workers.length = s.workers.length := by
  intro sched
  induction sched with
  | nil => intro s; rfl
  | cons w rest ih =>
    intro s
    show (runSched items processFn rest (stepWorker items processFn s w)).workers.length =
      s.workers.length
    rw [ih (stepWorker items processFn s w), stepWorker_workers_length]

theorem startWorkers_length (items : List Item) :
    ∀ (k : Nat), (startWorkers items k).2.length = k := by
  intro k
  induction k with
  | zero => rfl
  | succ k ih =>
    rw [startWorkers]
    rcases hsw : startWorkers items k with ⟨ci, ws⟩
    have hws : ws.length = k := by rw [hsw] at ih; exact ih
    rcases hgn : grabNext items ci with ⟨st, ci2⟩
    simp only [List.length_append, List.length_cons, List.length_nil]
    omega

theorem busyCount_le_workers (s : MState) : busyCount s ≤ s.workers.length :=
  List.countP_le_length _

theorem initState_workers_length (items : List Item) (concurrencyLimit : Nat) :
    (initState items concurrencyLimit).workers.length = min concurrencyLimit items.length := by
  unfold initState
  rcases hsw : startWorkers items (min concurrencyLimit items.length) with ⟨ci, ws⟩
  have := startWorkers_length items (min concurrencyLimit items.length)
  rw [hsw] at this
  exact this

end BatchProcessing2

/-- Claim C3: the number of simultaneously in-flight pipeline
invocations never exceeds the configured concurrency limit.  For the
throttling scheduler the high-water mark of `activePromises.length`
(recorded after each fill phase, where it peaks) stays at or below
`maxConcurrent` for every batch; for the worker-pool scheduler the
number of worker chains concurrently awaiting `processFn` is bounded by
the spawned worker count `min(concurrencyLimit, items.length)` at every
point of every schedule. -/
theorem c3_concurrency_bound :
    (∀ (issues : List BatchProcessing.Issue) (maxConcurrent : Nat),
      (BatchProcessing.processThrottlingState issues maxConcurrent).hiwater ≤ maxConcurrent) ∧
    (∀ (items : List BatchProcessing2.Item)
        (processFn : BatchProcessing2.Item → Except String BatchProcessing2.ResultObj)
        (concurrencyLimit : Nat) (sched : List Nat),
      BatchProcessing2.busyCount
        (BatchProcessing2.processWithConcurrencyLimitState items processFn
          concurrencyLimit sched) ≤ concurrencyLimit) := by
  constructor
  · intro issues maxConcurrent
    unfold BatchProcessing.processThrottlingState
    have h := BatchProcessing.simLoop_bounds issues maxConcurrent issues.length
      ⟨0, 0, [], [], 0⟩ (by simp) (by simp)
    exact h.2
  · intro items processFn concurrencyLimit sched
    have h1 := BatchProcessing2.busyCount_le_workers
      (BatchProcessing2.processWithConcurrencyLimitState items processFn concurrencyLimit sched)
    have h2 : (BatchProcessing2.processWithConcurrencyLimitState items processFn
        concurrencyLimit sched).workers.length =
        (BatchProcessing2.initState items concurrencyLimit).workers.length :=
      BatchProcessing2.runSched_workers_length ..
    have h3 := BatchProcessing2.initState_workers_length items concurrencyLimit
    omega

namespace BatchProcessing2

theorem jsOrNat_pos (v : Option Nat) (d : Nat) (hd : 1 ≤ d) : 1 ≤ jsOrNat v d := by
  rcases v with _ | k
  · simpa [jsOrNat] using hd
  · rcases k with _ | k
    · simpa [jsOrNat] using hd
    · simp [jsOrNat]

/-- Characterization of the spawn loop when the requested worker count
does not exceed the item count. -/
theorem startWorkers_spec (items : List Item) :
    ∀ (k : Nat), k ≤ items.length →
      (startWorkers items k).1 = k ∧
      (∀ (p : Nat) (st : WStatus), ((startWorkers items k).2)[p]? = some st →
        p < k ∧ ∃ it, st = .busy p it ∧ items[p]? = some it) ∧
      (∀ p : Nat, p < k → ∃ it, items[p]? = some it ∧
        ((startWorkers items k).2)[p]? = some (.busy p it)) := by
  intro k
  induction k with
  | zero =>
    intro _hk
    refine ⟨rfl, ?_, ?_⟩
    · intro p st h
      simp [startWorkers] at h
    · intro p hp
      omega
  | succ k ih =>
    intro hk
    obtain ⟨ih1, ih2, ih3⟩ := ih (by omega)
    have hkl : k < items.length := by omega
    have hlen := startWorkers_length items k
    have hgn : grabNext items k = (.busy k (items.get ⟨k, hkl⟩), k + 1) := by
      unfold grabNext
      rw [dif_pos hkl]
    rw [startWorkers]
    rcases hsw : startWorkers items k with ⟨ci, ws⟩
    rw [hsw] at ih1 ih2 ih3 hlen
    simp only at ih1 ih2 ih3 hlen
    subst ih1
    dsimp only
    rw [hgn]
    dsimp only
    refine ⟨rfl, ?_, ?_⟩
    · intro p st hp
      by_cases hpk : p < ci
      · rw [List.getElem?_append, if_pos (by omega)] at hp
        obtain ⟨_, it, hst, hit⟩ := ih2 p st hp
        exact ⟨by omega, it, hst, hit⟩
      · rw [List.getElem?_append_right (by omega)] at hp
        by_cases hpe : p = ci
        · subst hpe
          rw [hlen] at hp
          simp at hp
          refine ⟨by omega, items.get ⟨p, hkl⟩, hp.symm, ?_⟩
          rw [List.getElem?_eq_getElem hkl]
          simp [List.get_eq_getElem]
        · rw [hlen] at hp
          rw [List.getElem?_eq_none (by simp only [List.length_cons, List.length_nil]; omega)] at hp
          exact absurd hp (by simp)
    · intro p hp
      by_cases hpk : p < ci
      · obtain ⟨it, hit, hws⟩ := ih3 p hpk
        exact ⟨it, hit, by rw [List.getElem?_append, if_pos (by omega)]; exact hws⟩
      · have hpe : p = ci := by omega
        subst hpe
        refine ⟨items.get ⟨p, hkl⟩, ?_, ?_⟩
        · rw [List.getElem?_eq_getElem hkl]
          simp [List.get_eq_getElem]
        · rw [List.getElem?_append_right (by omega), hlen]
          simp

theorem initState_MInv (items : List Item) (f : Item → Except String ResultObj)
    (concurrencyLimit : Nat) : MInv items f (initState items concurrencyLimit) := by
  have hmin : min concurrencyLimit items.length ≤ items.length := Nat.min_le_right ..
  obtain ⟨S1, S2, S3⟩ := startWorkers_spec items (min concurrencyLimit items.length) hmin
  unfold initState
  rcases hsw : startWorkers items (min concurrencyLimit items.length) with ⟨ci, ws⟩
  rw [hsw] at S1 S2 S3
  simp only at S1 S2 S3
  subst S1
  refine ⟨List.length_replicate .., ?_, ?_, ?_, ?_⟩
  · intro p idx it hp
    simp only at hp
    obtain ⟨hpk, it2, hst, hit⟩ := S2 p _ hp
    cases hst
    exact ⟨hpk, hit⟩
  · intro i hi
    simp only at hi ⊢
    obtain ⟨it, _hit, hws⟩ := S3 i hi
    exact Or.inr ⟨i, it, hws⟩
  · intro i _hi hilen
    simp only
    simp [List.getElem?_replicate, hilen]
  · intro hdone
    simp only at hdone
    obtain ⟨n, hn, he⟩ := List.getElem_of_mem hdone
    have : ws[n]? = some .done := by rw [List.getElem?_eq_getElem hn, he]
    obtain ⟨_, it, hst, _⟩ := S2 n .done this
    exact absurd hst (by simp)

theorem stepWorker_MInv (items : List Item) (f : Item → Except String ResultObj)
    (s : MState) (w : Nat) (hinv : MInv items f s) :
    MInv items f (stepWorker items f s w) ∧
      s.currentIndex ≤ (stepWorker items f s w).currentIndex := by
  obtain ⟨hA, hB, hC, hD, hE⟩ := hinv
  rcases hw : s.workers[w]? with _ | st
  · rw [show stepWorker items f s w = s by unfold stepWorker; rw [hw]]
    exact ⟨⟨hA, hB, hC, hD, hE⟩, le_rfl⟩
  rcases st with ⟨idx, item⟩ | _
  swap
  · rw [show stepWorker items f s w = s by unfold stepWorker; rw [hw]]
    exact ⟨⟨hA, hB, hC, hD, hE⟩, le_rfl⟩
  obtain ⟨hidx, hit⟩ := hB w idx item hw
  have hidxlen : idx < items.length := (List.getElem?_eq_some.mp hit).1
  have hwlt : w < s.workers.length := (List.getElem?_eq_some.mp hw).1
  have hreslen : idx < s.results.length := by omega
  by_cases hci : s.currentIndex < items.length
  · have hstep : stepWorker items f s w =
        ⟨s.currentIndex + 1,
         s.workers.set w (.busy s.currentIndex (items.get ⟨s.currentIndex, hci⟩)),
         s.results.set idx (some (expectedResult f item))⟩ := by
      unfold stepWorker
      rw [hw]
      simp only
      rw [show grabNext items s.currentIndex =
        (.busy s.currentIndex (items.get ⟨s.currentIndex, hci⟩), s.currentIndex + 1) by
          unfold grabNext; rw [dif_pos hci]]
    rw [hstep]
    refine ⟨⟨?_, ?_, ?_, ?_, ?_⟩, by simp⟩
    · simp only
      rw [List.length_set]
      exact hA
    · intro p idx2 it2 hp
      simp only at hp ⊢
      by_cases hpw : p = w
      · subst hpw
        rw [List.getElem?_set, if_pos rfl, if_pos hwlt] at hp
        injection hp with hp
        cases hp
        exact ⟨by omega, by rw [List.getElem?_eq_getElem hci]; simp [List.get_eq_getElem]⟩
      · rw [List.getElem?_set_ne (fun h => hpw h.symm)] at hp
        obtain ⟨h1, h2⟩ := hB p idx2 it2 hp
        exact ⟨by omega, h2⟩
    · intro i hi
      simp only at hi ⊢
      by_cases hic : i < s.currentIndex
      · rcases hC i hic with hfill | ⟨p, it2, hbusy⟩
        · left
          by_cases hiidx : i = idx
          · subst hiidx
            rw [List.getElem?_set, if_pos rfl, if_pos hreslen, hit]
            rfl
          · rw [List.getElem?_set_ne (fun h => hiidx h.symm)]
            exact hfill
        · by_cases hpw : p = w
          · subst hpw
            rw [hw] at hbusy
            injection hbusy with hbusy
            cases hbusy
            left
            rw [List.getElem?_set, if_pos rfl, if_pos hreslen, hit]
            rfl
          · right
            exact ⟨p, it2, by
              rw [List.getElem?_set_ne (fun h => hpw h.symm)]
              exact hbusy⟩
      · have hie : i = s.currentIndex := by omega
        subst hie
        right
        refine ⟨w, items.get ⟨s.currentIndex, hci⟩, ?_⟩
        rw [List.getElem?_set, if_pos rfl, if_pos hwlt]
    · intro i hge hlen2
      simp only at hge ⊢
      rw [List.getElem?_set_ne (by omega)]
      exact hD i (by omega) hlen2
    · intro hdone
      simp only at hdone ⊢
      rcases List.mem_or_eq_of_mem_set hdone with hmem | heq
      · have := hE hmem
        omega
      · exact absurd heq (by simp)
  · have hstep : stepWorker items f s w =
        ⟨s.currentIndex + 1, s.workers.set w .done,
         s.results.set idx (some (expectedResult f item))⟩ := by
      unfold stepWorker
      rw [hw]
      simp only
      rw [show grabNext items s.currentIndex = (.done, s.currentIndex + 1) by
        unfold grabNext; rw [dif_neg hci]]
    rw [hstep]
    refine ⟨⟨?_, ?_, ?_, ?_, ?_⟩, by simp⟩
    · simp only
      rw [List.length_set]
      exact hA
    · intro p idx2 it2 hp
      simp only at hp ⊢
      by_cases hpw : p = w
      · subst hpw
        rw [List.getElem?_set, if_pos rfl, if_pos hwlt] at hp
        exact absurd hp (by simp)
      · rw [List.getElem?_set_ne (fun h => hpw h.symm)] at hp
        obtain ⟨h1, h2⟩ := hB p idx2 it2 hp
        exact ⟨by omega, h2⟩
    · intro i hi
      simp only at hi ⊢
      by_cases hic : i < s.currentIndex
      · rcases hC i hic with hfill | ⟨p, it2, hbusy⟩
        · left
          by_cases hiidx : i = idx
          · subst hiidx
            rw [List.getElem?_set, if_pos rfl, if_pos hreslen, hit]
            rfl
          · rw [List.getElem?_set_ne (fun h => hiidx h.symm)]
            exact hfill
        · by_cases hpw : p = w
          · subst hpw
            rw [hw] at hbusy
            injection hbusy with hbusy
            cases hbusy
            left
            rw [List.getElem?_set, if_pos rfl, if_pos hreslen, hit]
            rfl
          · right
            exact ⟨p, it2, by
              rw [List.getElem?_set_ne (fun h => hpw h.symm)]
              exact hbusy⟩
      · have hie : i = s.currentIndex := by omega
        subst hie
        left
        rw [List.getElem?_set_ne (by omega)]
        rw [List.getElem?_eq_none (show items.length ≤ s.currentIndex by omega),
          List.getElem?_eq_none (show s.results.length ≤ s.currentIndex by omega)]
        rfl
    · intro i hge hlen2
      simp only at hge ⊢
      rw [List.getElem?_set_ne (by omega)]
      exact hD i (by omega) hlen2
    · intro _hdone
      simp only
      omega

theorem runSched_MInv (items : List Item) (f : Item → Except String ResultObj) :
    ∀ (sched : List Nat) (s : MState), MInv items f s →
      MInv items f (runSched items f sched s) := by
  intro sched
  induction sched with
  | nil => intro s h; exact h
  | cons w rest ih =>
    intro s h
    show MInv items f (runSched items f rest (stepWorker items f s w))
    exact ih _ (stepWorker_MInv items f s w h).1

end BatchProcessing2

/-- Claim C2 counterexample: an 11-item batch processed by the worker
pool `processBatch` under the default configuration returns only 10
results - the function truncates the input with
`issueList.slice(0, maxIssuesPerBatch)` (default 10) before
processing, so the 11th item is dropped and no 11-element result list
is produced. -/
theorem c2_counterexample :
    (BatchProcessing2.processBatch
      (.arr ((List.range 11).map (fun i => ⟨"u" ++ toString i⟩)))
      (fun it => .ok ⟨true, none, some it.issueUrl⟩) ⟨none, none⟩
      [0, 0, 0, 0, 0, 0, 0, 0, 1, 2]).map List.length = .ok 10 ∧
    ((.ok 10 : Except String Nat) ≠ .ok 11) := by
  exact ⟨by decide, by decide⟩

/-- Claim C2 amended: for every non-empty batch, `processBatch` first
truncates the input to the configured `maxIssuesPerBatch` (default 10;
`maxConcurrent` defaults to 3) and then - for every completion
schedule that runs the workers to quiescence - returns exactly
`min(K, maxIssuesPerBatch)` per-item results: the result at position
`i` is exactly the result of the i-th retained item (its `processFn`
value, or the caught-error record), with no retained item dropped or
duplicated, regardless of how many items fail. -/
theorem c2_amended (items : List BatchProcessing2.Item)
    (f : BatchProcessing2.Item → Except String BatchProcessing2.ResultObj)
    (cfg : BatchProcessing2.BatchConfig) (sched : List Nat)
    (hne : items ≠ [])
    (hdone : BatchProcessing2.allDone
      (BatchProcessing2.processWithConcurrencyLimitState
        (items.take (jsOrNat cfg.maxIssuesPerBatch 10)) f
        (jsOrNat cfg.maxConcurrent 3) sched) = true) :
    BatchProcessing2.processBatch (.arr items) f cfg sched =
      .ok (BatchProcessing2.processWithConcurrencyLimit
        (items.take (jsOrNat cfg.maxIssuesPerBatch 10)) f
        (jsOrNat cfg.maxConcurrent 3) sched) ∧
    (BatchProcessing2.processWithConcurrencyLimit
        (items.take (jsOrNat cfg.maxIssuesPerBatch 10)) f
        (jsOrNat cfg.maxConcurrent 3) sched).length =
      min items.length (jsOrNat cfg.maxIssuesPerBatch 10) ∧
    ∀ i : Nat,
      (BatchProcessing2.processWithConcurrencyLimit
        (items.take (jsOrNat cfg.maxIssuesPerBatch 10)) f
        (jsOrNat cfg.maxConcurrent 3) sched)[i]? =
      ((items.take (jsOrNat cfg.maxIssuesPerBatch 10))[i]?).map
        (fun it => some (BatchProcessing2.expectedResult f it)) := by
  have hcap : 1 ≤ jsOrNat cfg.maxIssuesPerBatch 10 :=
    BatchProcessing2.jsOrNat_pos _ _ (by omega)
  have hmc : 1 ≤ jsOrNat cfg.maxConcurrent 3 :=
    BatchProcessing2.jsOrNat_pos _ _ (by omega)
  have hitems1 : 1 ≤ items.length := by
    cases items with
    | nil => exact absurd rfl hne
    | cons a l => simp
  have hlim1 : 1 ≤ (items.take (jsOrNat cfg.maxIssuesPerBatch 10)).length := by
    rw [List.length_take]
    omega
  set limited := items.take (jsOrNat cfg.maxIssuesPerBatch 10) with hlimited
  set final := BatchProcessing2.processWithConcurrencyLimitState limited f
    (jsOrNat cfg.maxConcurrent 3) sched with hfinal
  have hinv : BatchProcessing2.MInv limited f final :=
    BatchProcessing2.runSched_MInv limited f sched _
      (BatchProcessing2.initState_MInv limited f (jsOrNat cfg.maxConcurrent 3))
  obtain ⟨hA, hB, hC, hD, hE⟩ := hinv
  have hwl : final.workers.length = min (jsOrNat cfg.maxConcurrent 3) limited.length := by
    rw [hfinal]
    show (BatchProcessing2.runSched limited f sched
      (BatchProcessing2.initState limited (jsOrNat cfg.maxConcurrent 3))).workers.length = _
    rw [BatchProcessing2.runSched_workers_length]
    exact BatchProcessing2.initState_workers_length ..
  have hwpos : 0 < final.workers.length := by
    rw [hwl]
    omega
  have hdone_mem : BatchProcessing2.WStatus.done ∈ final.workers := by
    have hmem : final.workers.get ⟨0, hwpos⟩ ∈ final.workers := List.get_mem ..
    have hall := (List.all_eq_true.mp hdone) _ hmem
    cases hst : final.workers.get ⟨0, hwpos⟩ with
    | busy a b =>
      rw [hst] at hall
      simp at hall
    | done =>
      rw [hst] at hmem
      exact hmem
  have hciex : limited.length ≤ final.currentIndex := hE hdone_mem
  have hnobusy : ∀ (p idx : Nat) (it : BatchProcessing2.Item),
      final.workers[p]? = some (.busy idx it) → False := by
    intro p idx it hp
    have hmem := List.getElem?_mem hp
    have := (List.all_eq_true.mp hdone) _ hmem
    simp at this
  have hlen0 : ¬ items.length = 0 := by omega
  refine ⟨?_, ?_, ?_⟩
  · simp only [BatchProcessing2.processBatch]
    rw [if_neg hlen0]
  · show final.results.length = _
    rw [hA, hlimited, List.length_take]
    exact Nat.min_comm ..
  · intro i
    show final.results[i]? = _
    by_cases hi : i < limited.length
    · rcases hC i (by omega) with hfill | ⟨p, it, hb⟩
      · exact hfill
      · exact absurd hb (fun h => hnobusy p i it h)
    · rw [List.getElem?_eq_none (show final.results.length ≤ i by omega),
        List.getElem?_eq_none (show limited.length ≤ i by omega)]
      rfl

/-- Witness for C2 amended: a two-item batch under the default
configuration with the schedule that completes worker 0 then worker 1. -/
theorem c2_amended_witness :
    (([⟨"a"⟩, ⟨"b"⟩] : List BatchProcessing2.Item) ≠ []) ∧
    BatchProcessing2.allDone (BatchProcessing2.processWithConcurrencyLimitState
      (([⟨"a"⟩, ⟨"b"⟩] : List BatchProcessing2.Item).take (jsOrNat none 10))
      (fun it => .ok ⟨true, none, some it.issueUrl⟩) (jsOrNat none 3) [0, 1]) = true ∧
    BatchProcessing2.processBatch (.arr [⟨"a"⟩, ⟨"b"⟩])
        (fun it => .ok ⟨true, none, some it.issueUrl⟩) ⟨none, none⟩ [0, 1] =
      .ok (BatchProcessing2.processWithConcurrencyLimit
        (([⟨"a"⟩, ⟨"b"⟩] : List BatchProcessing2.Item).take (jsOrNat none 10))
        (fun it => .ok ⟨true, none, some it.issueUrl⟩) (jsOrNat none 3) [0, 1]) := by
  refine ⟨by decide, by decide, ?_⟩
  exact (c2_amended [⟨"a"⟩, ⟨"b"⟩] (fun it => .ok ⟨true, none, some it.issueUrl⟩)
    ⟨none, none⟩ [0, 1] (by decide) (by decide)).1
